import Mathlib

set_option maxRecDepth 2048

/-!
Verification of the data-importer repository (Go) against its
natural-language specification.  The definitions below are a shallow
embedding of the Go source:

* `internal/utils` (file utilities embedded at the end of
  `internal/utils/fileutils_test.go`): `ParseJSONFile`, `FindJSONFiles`,
  `IsDirectory`, `FilePathToCollectionName`;
* `internal/service/importer.go` (current revision, the file containing
  `NewMongoImporterWithOptions`, `cleanDocuments`, `processDocumentDates`,
  `parseDateTime`, `isDateString`, exercised by `importer_test.go`):
  `ImportPath`, `ImportFile`, `ImportDirectory`, `processBatches`;
* `internal/repository/mongodb.go`: `InsertDocuments`;
* `internal/domain/models.go`: `Document`, `ImportResult`, error types.

Go machine integers never overflow in the modelled code (counts of list
elements), so they are modelled as `Nat`.  JSON numbers are decoded by Go
into `float64`; no claim inspects numeric values, so the exact decimal
value is carried as a rational instead.  Errors built with `fmt.Errorf`
wrapping are modelled by an inductive type with one constructor per
wrapping site.
-/

namespace DataImporter

/-! ## Basic helpers -/

/-- Helper for `chunksOf`: the fuel bounds the number of chunks; the
original list's length is always enough fuel when `0 < bs`. -/
def chunksOfAux (bs : Nat) : Nat → List α → List (List α)
  | _, [] => []
  | 0, _ :: _ => []
  | fuel + 1, a :: t => ((a :: t).take bs) :: chunksOfAux bs fuel ((a :: t).drop bs)

/-- Consecutive chunks of at most `bs` elements, preserving order (for
`0 < bs`).  This is the partition produced by the batch loop
`for i := 0; i < len(documents); i += batchSize` in `InsertDocuments`
(mongodb.go). -/
def chunksOf (bs : Nat) (l : List α) : List (List α) :=
  chunksOfAux bs l.length l

/-! ## Go `path/filepath` functions (Unix rules), used by
`FilePathToCollectionName` in fileutils. -/

/-- `filepath.Base` on Unix: empty path gives ".", trailing slashes are
stripped, the last path element is returned, an all-slash path gives "/". -/
def goBaseChars (p : List Char) : List Char :=
  if p = [] then ['.']
  else
    let q := (p.reverse.dropWhile (· = '/')).reverse
    if q = [] then ['/']
    else (q.reverse.takeWhile (· ≠ '/')).reverse

def goBase (p : String) : String := ⟨goBaseChars p.data⟩

/-- `filepath.Ext`: scan backwards from the end, stopping at a path
separator; return the suffix from the last dot, or "" if none. -/
def goExtChars (p : List Char) : List Char :=
  let r := p.reverse
  let pre := r.takeWhile (fun c => c ≠ '/' ∧ c ≠ '.')
  match r.drop pre.length with
  | '.' :: _ => '.' :: pre.reverse
  | _ => []

def goExt (p : String) : String := ⟨goExtChars p.data⟩

/-- `strings.TrimSuffix`. -/
def trimSuffixChars (s suf : List Char) : List Char :=
  if suf.isSuffixOf s then s.take (s.length - suf.length) else s

/-- `utils.FilePathToCollectionName`: base name with `filepath.Ext`
stripped via `strings.TrimSuffix`. -/
def FilePathToCollectionName (filePath : String) : String :=
  let fileName := goBase filePath
  ⟨trimSuffixChars fileName.data (goExt fileName).data⟩

/-- Spec-side description of the collection name ("the file's base name
with its final extension removed"): everything before the last dot of the
base name, the whole base name when it has no dot. -/
def stripFinalExt (s : List Char) : List Char :=
  if s.contains '.' then
    s.reverse.dropWhile (· ≠ '.') |>.drop 1 |>.reverse
  else s

/-! ## Errors

One constructor per `fmt.Errorf`/`errors.New` wrapping site in the
modelled code. -/

inductive GoErr where
  /-- an underlying error from the OS, driver or `errors.New` -/
  | base (msg : String)
  /-- a JSON syntax or type error from `json.Unmarshal` -/
  | syntaxErr (msg : String)
  /-- fileutils `ParseJSONFile`: "error reading file %s: %w" -/
  | errReadingFile (path : String) (cause : GoErr)
  /-- fileutils `ParseJSONFile`: "invalid JSON format in file %s: %w" -/
  | invalidJSONFormat (path : String) (cause : GoErr)
  /-- fileutils `IsDirectory` and service `ImportPath`:
  "error checking path %s: %w" -/
  | errCheckingPath (path : String) (cause : GoErr)
  /-- fileutils `FindJSONFiles` and service `ImportDirectory`:
  "error finding JSON files in directory %s: %w" -/
  | errFindingFiles (dir : String) (cause : GoErr)
  /-- service `ImportDirectory`: "no JSON files found in directory %s" -/
  | noJSONFilesFound (dir : String)
  /-- service `ImportFile`: "error parsing file %s: %w" -/
  | errParsingFile (path : String) (cause : GoErr)
  /-- service `ImportFile`: "error importing documents to collection %s: %w" -/
  | errImportingColl (coll : String) (cause : GoErr)
  /-- repository `InsertDocuments`: `RepositoryError` naming the collection
  and "batch %d/%d" when one `InsertMany` call fails -/
  | repoInsertErr (coll : String) (batchNum totalBatches : Nat) (cause : GoErr)
  /-- service `ImportDirectory`: "%d out of %d files failed to import" -/
  | aggregateErr (failed total : Nat)
deriving DecidableEq, Repr

/-! ## Temporal values and Go `time.Parse` on the importer's layouts -/

/-- A parsed `time.Time`: calendar fields plus the zone offset in minutes
(`Z` gives offset 0; a layout without a zone token gives UTC, offset 0). -/
structure DTime where
  year : Nat
  month : Nat
  day : Nat
  hour : Nat
  minute : Nat
  second : Nat
  nanos : Nat
  offsetMin : Int
deriving DecidableEq, Repr

def isLeapYear (y : Nat) : Bool :=
  y % 4 = 0 && (y % 100 ≠ 0 || y % 400 = 0)

/-- Days in a month, as validated by Go's `time.Parse` range checks. -/
def daysIn (month year : Nat) : Nat :=
  if month = 2 then (if isLeapYear year then 29 else 28)
  else if month = 4 ∨ month = 6 ∨ month = 9 ∨ month = 11 then 30
  else 31

def digitVal (c : Char) : Nat := c.toNat - '0'.toNat

def digitsToNat (l : List Char) : Nat :=
  l.foldl (fun acc c => acc * 10 + digitVal c) 0

/-- Exactly `n` decimal digits; returns their value and the rest. -/
def takeDigits : Nat → List Char → Option (Nat × List Char)
  | 0, l => some (0, l)
  | _ + 1, [] => none
  | n + 1, c :: rest =>
    if c.isDigit then
      (takeDigits n rest).map fun (v, r) => (digitVal c * 10 ^ n + v, r)
    else none

def expectChar (c : Char) : List Char → Option (List Char)
  | [] => none
  | d :: rest => if d = c then some rest else none

/-- `YYYY-MM-DD` with Go's range validation (month 1–12, day within the
month). -/
def parseDatePart (l : List Char) : Option ((Nat × Nat × Nat) × List Char) := do
  let (y, l) ← takeDigits 4 l
  let l ← expectChar '-' l
  let (mo, l) ← takeDigits 2 l
  let l ← expectChar '-' l
  let (d, l) ← takeDigits 2 l
  if 1 ≤ mo ∧ mo ≤ 12 ∧ 1 ≤ d ∧ d ≤ daysIn mo y then
    some ((y, mo, d), l)
  else none

/-- `HH:MM:SS` with Go's range validation. -/
def parseClockPart (l : List Char) : Option ((Nat × Nat × Nat) × List Char) := do
  let (h, l) ← takeDigits 2 l
  let l ← expectChar ':' l
  let (mi, l) ← takeDigits 2 l
  let l ← expectChar ':' l
  let (s, l) ← takeDigits 2 l
  if h ≤ 23 ∧ mi ≤ 59 ∧ s ≤ 59 then some ((h, mi, s), l) else none

/-- An optional fractional-second field `.d{1..9}`, as accepted when
parsing the RFC 3339 layouts; returns the value in nanoseconds. -/
def parseFracPart (l : List Char) : Option (Nat × List Char) :=
  match l with
  | '.' :: rest =>
    let ds := rest.takeWhile Char.isDigit
    if 1 ≤ ds.length ∧ ds.length ≤ 9 then
      some (digitsToNat ds * 10 ^ (9 - ds.length), rest.drop ds.length)
    else none
  | _ => some (0, l)

/-- Zone for RFC 3339: `Z` or `±HH:MM`. -/
def parseZonePart (l : List Char) : Option (Int × List Char) :=
  match l with
  | 'Z' :: rest => some (0, rest)
  | '+' :: rest => do
    let (h, l) ← takeDigits 2 rest
    let l ← expectChar ':' l
    let (m, l) ← takeDigits 2 l
    if h ≤ 23 ∧ m ≤ 59 then some ((h * 60 + m : Nat), l) else none
  | '-' :: rest => do
    let (h, l) ← takeDigits 2 rest
    let l ← expectChar ':' l
    let (m, l) ← takeDigits 2 l
    if h ≤ 23 ∧ m ≤ 59 then some (-((h * 60 + m : Nat) : Int), l) else none
  | _ => none

/-- `time.Parse(time.RFC3339, s)` (and `time.RFC3339Nano`, which accepts
the same inputs: the fractional second is optional when parsing). -/
def parseLayoutRFC3339 (s : String) : Option DTime := do
  let l := s.data
  let ((y, mo, d), l) ← parseDatePart l
  let l ← expectChar 'T' l
  let ((h, mi, sec), l) ← parseClockPart l
  let (ns, l) ← parseFracPart l
  let (off, l) ← parseZonePart l
  if l = [] then some ⟨y, mo, d, h, mi, sec, ns, off⟩ else none

/-- `time.Parse("2006-01-02T15:04:05.000Z", s)`: the fraction must be
exactly three digits and the trailing `Z` is a literal; no zone token, so
the result is in UTC. -/
def parseLayoutMilliZ (s : String) : Option DTime := do
  let l := s.data
  let ((y, mo, d), l) ← parseDatePart l
  let l ← expectChar 'T' l
  let ((h, mi, sec), l) ← parseClockPart l
  let l ← expectChar '.' l
  let (ms, l) ← takeDigits 3 l
  let l ← expectChar 'Z' l
  if l = [] then some ⟨y, mo, d, h, mi, sec, ms * 1000000, 0⟩ else none

/-- `time.Parse("2006-01-02", s)`: bare date, midnight UTC. -/
def parseLayoutBareDate (s : String) : Option DTime := do
  let l := s.data
  let ((y, mo, d), l) ← parseDatePart l
  if l = [] then some ⟨y, mo, d, 0, 0, 0, 0, 0⟩ else none

/-- service `parseDateTime`: tries `time.RFC3339`, `time.RFC3339Nano`,
`"2006-01-02T15:04:05.000Z"` and `"2006-01-02"` in order; the first
successful format wins, and if all fail the error
"unable to parse date: %s" is returned (modelled as `none`). -/
def parseDateTime (dateStr : String) : Option DTime :=
  (parseLayoutRFC3339 dateStr).orElse fun _ =>
    (parseLayoutRFC3339 dateStr).orElse fun _ =>
      (parseLayoutMilliZ dateStr).orElse fun _ =>
        parseLayoutBareDate dateStr

/-- service `isDateString`: the regular expression
`^\d{4}-\d{2}-\d{2}T\d{2}:\d{2}:\d{2}(\.\d+)?(Z|[+-]\d{2}:\d{2})$`
(a pure pattern check, no range validation). -/
def isDateString (s : String) : Bool :=
  let digits : Nat → List Char → Option (List Char) := fun n l =>
    (takeDigits n l).map Prod.snd
  let afterTime : Option (List Char) := do
    let l := s.data
    let l ← digits 4 l
    let l ← expectChar '-' l
    let l ← digits 2 l
    let l ← expectChar '-' l
    let l ← digits 2 l
    let l ← expectChar 'T' l
    let l ← digits 2 l
    let l ← expectChar ':' l
    let l ← digits 2 l
    let l ← expectChar ':' l
    digits 2 l
  match afterTime with
  | none => false
  | some l =>
    let (fracOk, l) :=
      match l with
      | '.' :: rest =>
        let ds := rest.takeWhile Char.isDigit
        (decide (1 ≤ ds.length), rest.drop ds.length)
      | _ => (true, l)
    fracOk &&
      match l with
      | ['Z'] => true
      | c :: rest =>
        (c = '+' || c = '-') &&
          (match (do
            let l ← digits 2 rest
            let l ← expectChar ':' l
            digits 2 l : Option (List Char)) with
          | some [] => true
          | _ => false)
      | _ => false

/-! ## Dynamically-typed record values (`map[string]any`) -/

/-- The values Go's `json.Unmarshal` produces inside `map[string]any`,
plus `time.Time` values written by `processDocumentDates`.  Go decodes
JSON numbers to `float64`; no modelled operation inspects a number, so the
exact decimal value is carried as a rational. -/
inductive Value where
  | vNull
  | vBool (b : Bool)
  | vNum (q : ℚ)
  | vStr (s : String)
  | vArr (elems : List Value)
  | vMap (fields : List (String × Value))
  | vTime (t : DTime)
deriving Repr

/-- `domain.Document` = `map[string]any`, modelled as an association list
(Go map iteration order is irrelevant to every modelled operation). -/
abbrev Document := List (String × Value)

/-- Go map indexing `m["k"]`. -/
def lookupKey (k : String) : List (String × Value) → Option Value
  | [] => none
  | (k', v) :: rest => if k' = k then some v else lookupKey k rest

/-- Go `delete(m, k)`. -/
def deleteKey (k : String) : List (String × Value) → List (String × Value)
  | [] => []
  | (k', v) :: rest =>
    if k' = k then deleteKey k rest else (k', v) :: deleteKey k rest

/-- Go map assignment `m[k] = v` (replaces an existing key, else appends). -/
def setKey (k : String) (v : Value) : List (String × Value) → List (String × Value)
  | [] => [(k, v)]
  | (k', v') :: rest =>
    if k' = k then (k, v) :: rest else (k', v') :: setKey k v rest

/-! ## service `processDocumentDates` / `cleanDocuments`

The per-value transformation applied to each key of a document: a nested
map carrying a string `"$date"` is replaced by the parsed time on success
and left untouched (with a printed warning) on failure; a nested map
without `"$date"` is recursed into; a string matching `isDateString` is
replaced by its parsed time when parsing succeeds; everything else
(arrays included) is untouched.  The `fmt.Printf` warnings are collected
into a list. -/

mutual

def procVal : Value → Value × List String
  | .vMap fields =>
    match lookupKey "$date" fields with
    | some (.vStr ds) =>
      match parseDateTime ds with
      | some t => (.vTime t, [])
      | none => (.vMap fields, ["Failed to parse date string: " ++ ds])
    | some _ => (.vMap fields, [])
    | none =>
      let p := procFields fields
      (.vMap p.1, p.2)
  | .vStr s =>
    if isDateString s then
      match parseDateTime s with
      | some t => (.vTime t, [])
      | none => (.vStr s, [])
    else (.vStr s, [])
  | v => (v, [])

def procFields : List (String × Value) → List (String × Value) × List String
  | [] => ([], [])
  | (k, v) :: rest =>
    let p := procVal v
    let q := procFields rest
    ((k, p.1) :: q.1, p.2 ++ q.2)

end

/-- service `processDocumentDates`. -/
def processDocumentDates (doc : Document) : Document × List String :=
  procFields doc

/-- service `cleanDocuments`: a no-op when `removeIDField` is false;
otherwise deletes the top-level `_id` of every document and runs
`processDocumentDates` on it. -/
def cleanDocuments (removeIDField : Bool) (documents : List Document) :
    List Document × List String :=
  if removeIDField = false then (documents, [])
  else
    documents.foldr
      (fun doc acc =>
        let p := processDocumentDates (deleteKey "_id" doc)
        (p.1 :: acc.1, p.2 ++ acc.2))
      ([], [])

/-! ## JSON grammar and `json.Unmarshal` -/

/-- A JSON value as defined by the JSON grammar (ground truth for what a
"valid JSON array / object" is). -/
inductive Json where
  | jnull
  | jbool (b : Bool)
  | jnum (q : ℚ)
  | jstr (s : String)
  | jarr (elems : List Json)
  | jobj (fields : List (String × Json))
deriving Repr

def isJsonWs (c : Char) : Bool :=
  c = ' ' || c = '\t' || c = '\n' || c = '\r'

def skipWs (l : List Char) : List Char := l.dropWhile isJsonWs

def isHexDigit (c : Char) : Bool :=
  c.isDigit || ('a' ≤ c && c ≤ 'f') || ('A' ≤ c && c ≤ 'F')

def hexVal (c : Char) : Nat :=
  if c.isDigit then digitVal c
  else if 'a' ≤ c && c ≤ 'f' then c.toNat - 'a'.toNat + 10
  else c.toNat - 'A'.toNat + 10

/-- JSON string body after the opening quote: standard escapes, raw
control characters rejected.  (`\uXXXX` is mapped through `Char.ofNat`;
surrogate-pair recombination is not modelled — no claim touches it.) -/
def jstrBody : List Char → List Char → Option (List Char × List Char)
  | [], _ => none
  | '"' :: rest, acc => some (acc.reverse, rest)
  | '\\' :: c :: rest, acc =>
    match c with
    | '"' => jstrBody rest ('"' :: acc)
    | '\\' => jstrBody rest ('\\' :: acc)
    | '/' => jstrBody rest ('/' :: acc)
    | 'b' => jstrBody rest (Char.ofNat 8 :: acc)
    | 'f' => jstrBody rest (Char.ofNat 12 :: acc)
    | 'n' => jstrBody rest ('\n' :: acc)
    | 'r' => jstrBody rest (Char.ofNat 13 :: acc)
    | 't' => jstrBody rest ('\t' :: acc)
    | 'u' =>
      match rest with
      | a :: b :: c2 :: d :: r =>
        if isHexDigit a && isHexDigit b && isHexDigit c2 && isHexDigit d then
          jstrBody r
            (Char.ofNat (((hexVal a * 16 + hexVal b) * 16 + hexVal c2) * 16 + hexVal d) :: acc)
        else none
      | _ => none
    | _ => none
  | c :: rest, acc =>
    if c.toNat < 32 then none else jstrBody rest (c :: acc)

/-- JSON number: `-?(0|[1-9][0-9]*)(\.[0-9]+)?([eE][+-]?[0-9]+)?`, with
its exact decimal value (Go stores it as `float64`; the rounding is not
modelled and no claim depends on it). -/
def jnumBody (l : List Char) : Option (ℚ × List Char) :=
  let (sign, l1) : ℚ × List Char :=
    match l with
    | '-' :: r => (-1, r)
    | _ => (1, l)
  let intDigits := l1.takeWhile Char.isDigit
  let l2 := l1.drop intDigits.length
  if intDigits.length = 0 then none
  else if 2 ≤ intDigits.length ∧ intDigits.headI = '0' then none
  else
    let intPart : ℚ := (digitsToNat intDigits : ℚ)
    let (fracOk, fracPart, l3) : Bool × ℚ × List Char :=
      match l2 with
      | '.' :: r =>
        let fd := r.takeWhile Char.isDigit
        if fd.length = 0 then (false, 0, r)
        else ((true : Bool), (digitsToNat fd : ℚ) / ((10 : ℚ) ^ fd.length), r.drop fd.length)
      | _ => (true, 0, l2)
    if fracOk = false then none
    else
      match l3 with
      | 'e' :: r | 'E' :: r =>
        let esign : Int := if r.head? = some '-' then -1 else 1
        let r1 : List Char :=
          if r.head? = some '-' ∨ r.head? = some '+' then r.tail else r
        let ed := r1.takeWhile Char.isDigit
        if ed.length = 0 then none
        else
          some (sign * (intPart + fracPart) * (10 : ℚ) ^ (esign * (digitsToNat ed : Int)),
            r1.drop ed.length)
      | _ => some (sign * (intPart + fracPart), l3)

/-- Recognise an exact literal token (`null`, `true`, `false`) at the head
of the input, returning what follows it. -/
def litTok : List Char → List Char → Option (List Char)
  | [], l => some l
  | w :: ws, c :: rest => if c = w then litTok ws rest else none
  | _ :: _, [] => none

mutual

/-- One JSON value, fuelled recursive-descent; returns the rest of the
input. -/
def jvalue : Nat → List Char → Option (Json × List Char)
  | 0, _ => none
  | fuel + 1, l =>
    match skipWs l with
    | '"' :: r =>
      (jstrBody r []).map fun p => (.jstr ⟨p.1⟩, p.2)
    | '[' :: r =>
      match skipWs r with
      | ']' :: r' => some (.jarr [], r')
      | r' => (jitems fuel r').map fun p => (.jarr p.1, p.2)
    | '{' :: r =>
      match skipWs r with
      | '}' :: r' => some (.jobj [], r')
      | r' => (jmembers fuel r').map fun p => (.jobj p.1, p.2)
    | l' =>
      match litTok "null".data l' with
      | some r => some (.jnull, r)
      | none =>
        match litTok "true".data l' with
        | some r => some (.jbool true, r)
        | none =>
          match litTok "false".data l' with
          | some r => some (.jbool false, r)
          | none => (jnumBody l').map fun p => (.jnum p.1, p.2)

/-- Array items (at least one), separated by commas, ended by `]`. -/
def jitems : Nat → List Char → Option (List Json × List Char)
  | 0, _ => none
  | fuel + 1, l => do
    let (v, rest) ← jvalue fuel l
    match skipWs rest with
    | ',' :: r => (jitems fuel r).map fun p => (v :: p.1, p.2)
    | ']' :: r => some ([v], r)
    | _ => none

/-- Object members (at least one): `"key": value`, separated by commas,
ended by `}`. -/
def jmembers : Nat → List Char → Option (List (String × Json) × List Char)
  | 0, _ => none
  | fuel + 1, l =>
    match skipWs l with
    | '"' :: r => do
      let (key, rest) ← jstrBody r []
      match skipWs rest with
      | ':' :: r2 => do
        let (v, rest2) ← jvalue fuel r2
        match skipWs rest2 with
        | ',' :: r3 => (jmembers fuel r3).map fun p => ((⟨key⟩, v) :: p.1, p.2)
        | '}' :: r3 => some ([(⟨key⟩, v)], r3)
        | _ => none
      | _ => none
    | _ => none

end

/-- Whole-input JSON parse: one value, with only whitespace around it
(`json.Unmarshal` rejects trailing data). -/
def jparse (s : String) : Option Json :=
  match jvalue (s.length + 1) s.data with
  | some (v, rest) => if skipWs rest = [] then some v else none
  | none => none

mutual

/-- `json.Unmarshal` decoding a JSON value into `any` (for values nested
inside a `map[string]any`). -/
def toValue : Json → Value
  | .jnull => .vNull
  | .jbool b => .vBool b
  | .jnum q => .vNum q
  | .jstr s => .vStr s
  | .jarr xs => .vArr (toValueList xs)
  | .jobj fs => .vMap (toFieldsAux [] fs)

def toValueList : List Json → List Value
  | [] => []
  | j :: rest => toValue j :: toValueList rest

/-- Object fields into a Go map: later duplicate keys overwrite earlier
ones. -/
def toFieldsAux (acc : List (String × Value)) :
    List (String × Json) → List (String × Value)
  | [] => acc
  | (k, j) :: rest => toFieldsAux (setKey k (toValue j) acc) rest

end

/-- A JSON object as a `map[string]any` document. -/
def objToDoc (fs : List (String × Json)) : Document := toFieldsAux [] fs

/-- Decoding one array element into `map[string]any`: an object fills the
map, `null` leaves it nil, anything else is a type error. -/
def decodeElem : Json → Except GoErr Document
  | .jobj fs => .ok (objToDoc fs)
  | .jnull => .ok ([] : Document)
  | _ => .error (.syntaxErr "cannot unmarshal array element into map")

/-- Element-wise decoding of the array form, stopping at the first type
error. -/
def decodeElems : List Json → Except GoErr (List Document)
  | [] => .ok []
  | e :: rest =>
    match decodeElem e with
    | .error err => .error err
    | .ok d =>
      match decodeElems rest with
      | .error err => .error err
      | .ok ds => .ok (d :: ds)

/-- `json.Unmarshal(content, &documents)` for
`var documents []map[string]any`: succeeds on a JSON array whose elements
are all objects (or nulls, which leave a nil map), and on JSON `null`
(which leaves the slice nil); every other well-formed value is a type
error and ill-formed input is a syntax error. -/
def unmarshalDocSlice (content : String) : Except GoErr (List Document) :=
  match jparse content with
  | none => .error (.syntaxErr content)
  | some .jnull => .ok []
  | some (.jarr elems) => decodeElems elems
  | some _ => .error (.syntaxErr "cannot unmarshal value into slice")

/-- `json.Unmarshal(content, &document)` for
`var document map[string]any`. -/
def unmarshalDoc (content : String) : Except GoErr Document :=
  match jparse content with
  | none => .error (.syntaxErr content)
  | some (.jobj fs) => .ok (objToDoc fs)
  | some .jnull => .ok []
  | some _ => .error (.syntaxErr "cannot unmarshal value into map")

/-- fileutils `ParseJSONFile` applied to the bytes read from the file:
try the array decode first, then the single-object decode, else fail with
"invalid JSON format in file %s: %w". -/
def parseJSONBytes (filePath : String) (content : String) :
    Except GoErr (List Document) :=
  match unmarshalDocSlice content with
  | .ok documents => .ok documents
  | .error _ =>
    match unmarshalDoc content with
    | .ok document => .ok [document]
    | .error e => .error (.invalidJSONFormat filePath e)

/-- fileutils `ParseJSONFile` including the initial `ReadFile`. -/
def ParseJSONFileModel (readFile : String → Except GoErr String)
    (filePath : String) : Except GoErr (List Document) :=
  match readFile filePath with
  | .error e => .error (.errReadingFile filePath e)
  | .ok content => parseJSONBytes filePath content

/-! ## domain `ImportResult` and the collaborator interfaces -/

/-- `domain.ImportResult`.  `Duration` is modelled as an abstract measured
number; Go zero values are the field defaults. -/
structure ImportResultM where
  fileName : String := ""
  collectionName : String := ""
  insertedCount : Nat := 0
  duration : Nat := 0
  error : Option GoErr := none
deriving DecidableEq, Repr

/-- `utils.FileUtilsInterface`, as injected into the service (the mocks in
`importer_test.go` implement exactly this shape). -/
structure FileUtilsModel where
  isDirectory : String → Except GoErr Bool
  findJSONFiles : String → Except GoErr (List String)
  parseJSONFile : String → Except GoErr (List Document)

/-- service `DocumentRepository` (the `ctx` argument carries no modelled
information). -/
structure RepoModel where
  insertDocuments : String → List Document → Except GoErr ImportResultM

/-- service `MongoImporter`.  `batchSize` is stored by the constructor but
not read by any modelled method.  `elapsed` models the wall-clock duration
`time.Since(startTime)` measured while importing a given file. -/
structure ImporterModel where
  fileUtils : FileUtilsModel
  repo : RepoModel
  batchSize : Nat
  removeIDField : Bool
  elapsed : String → Nat

/-! ## repository `InsertDocuments` (mongodb.go)

The MongoDB collection is abstracted as
`store : Nat → List Document → Except GoErr Nat`: the result of
`collection.InsertMany` for the batch with the given 0-based index,
returning `len(result.InsertedIDs)`.  The first component of the result
is the trace of store-call batch sizes, the observable interaction with
the store. -/

def insertLoop (store : Nat → List Document → Except GoErr Nat) (coll : String)
    (totalBatches : Nat) :
    List (List Document) → Nat → Nat → List Nat × Except GoErr Nat
  | [], _, totalInserted => ([], .ok totalInserted)
  | b :: rest, idx, totalInserted =>
    match store idx b with
    | .error e =>
      ([b.length], .error (.repoInsertErr coll (idx + 1) totalBatches e))
    | .ok n =>
      let p := insertLoop store coll totalBatches rest (idx + 1) (totalInserted + n)
      (b.length :: p.1, p.2)

/-- repository `InsertDocuments`: empty input returns a zero result
without touching the store; otherwise the documents are cut into
consecutive batches of the repository-internal `batchSize := 1000` and
each batch is submitted by one `InsertMany` call, aborting on the first
failure. -/
def InsertDocumentsT (store : Nat → List Document → Except GoErr Nat)
    (coll : String) (documents : List Document) :
    List Nat × Except GoErr ImportResultM :=
  if documents.isEmpty then
    ([], .ok { collectionName := coll })
  else
    let batchSize := 1000
    let totalBatches := (documents.length + batchSize - 1) / batchSize
    let p := insertLoop store coll totalBatches (chunksOf batchSize documents) 0 0
    (p.1, p.2.map fun n => { collectionName := coll, insertedCount := n })

/-- The repository wired up as the service's collaborator. -/
def mkRepo (store : Nat → List Document → Except GoErr Nat) : RepoModel :=
  ⟨fun coll documents => (InsertDocumentsT store coll documents).2⟩

/-! ## service `MongoImporter` methods (importer.go) -/

/-- service `processBatches`: a single `InsertDocuments` call; `(0, err)`
on failure, the repository's inserted count on success. -/
def processBatches (m : ImporterModel) (documents : List Document)
    (collectionName : String) : Nat × Option GoErr :=
  match m.repo.insertDocuments collectionName documents with
  | .error e => (0, some e)
  | .ok result => (result.insertedCount, none)

/-- service `ImportFile`: result fields are populated exactly as the Go
code assigns them — the error paths return early, so `insertedCount` and
`duration` keep their zero values there. -/
def ImportFile (m : ImporterModel) (filePath : String) :
    ImportResultM × Option GoErr :=
  let result0 : ImportResultM :=
    { fileName := goBase filePath
      collectionName := FilePathToCollectionName filePath }
  match m.fileUtils.parseJSONFile filePath with
  | .error e =>
    let err := GoErr.errParsingFile filePath e
    ({ result0 with error := some err }, some err)
  | .ok documents =>
    let domainDocs := (cleanDocuments m.removeIDField documents).1
    match processBatches m domainDocs result0.collectionName with
    | (_, some e) =>
      let err := GoErr.errImportingColl result0.collectionName e
      ({ result0 with error := some err }, some err)
    | (count, none) =>
      ({ result0 with
          insertedCount := count
          duration := m.elapsed filePath }, none)

/-- The two return shapes of `ImportDirectory`: `(nil, err)` on the fatal
paths, `(results, optional aggregate error)` otherwise. -/
inductive DirOutcome where
  | fatal (e : GoErr)
  | results (rs : List ImportResultM) (aggregate : Option GoErr)
deriving DecidableEq, Repr

/-- service `ImportDirectory`: discovery failure and zero discovered files
are fatal; otherwise one concurrent `ImportFile` task per file, whose
per-task error returns are discarded (`result, _ :=`); the collected
results carry an aggregate error when at least one per-file result has a
non-nil error.  The concurrent fan-out is modelled as a sequential map —
every task runs to completion independently and the spec leaves the
collection order open. -/
def ImportDirectory (m : ImporterModel) (dirPath : String) : DirOutcome :=
  match m.fileUtils.findJSONFiles dirPath with
  | .error e => .fatal (.errFindingFiles dirPath e)
  | .ok jsonFiles =>
    if jsonFiles = [] then .fatal (.noJSONFilesFound dirPath)
    else
      let results := jsonFiles.map fun f => (ImportFile m f).1
      let importErrors := results.filter fun r => r.error.isSome
      if importErrors.length > 0 then
        .results results (some (.aggregateErr importErrors.length jsonFiles.length))
      else
        .results results none

/-- The `(any, error)` return of `ImportPath`, split by shape. -/
inductive ImportOutcome where
  | fatal (e : GoErr)
  | fileRes (r : ImportResultM) (e : Option GoErr)
  | dirRes (rs : List ImportResultM) (e : Option GoErr)
deriving DecidableEq, Repr

/-- service `ImportPath`: classify, then delegate. -/
def ImportPath (m : ImporterModel) (path : String) : ImportOutcome :=
  match m.fileUtils.isDirectory path with
  | .error e => .fatal (.errCheckingPath path e)
  | .ok true =>
    match ImportDirectory m path with
    | .fatal e => .fatal e
    | .results rs agg => .dirRes rs agg
  | .ok false =>
    let p := ImportFile m path
    .fileRes p.1 p.2

end DataImporter


namespace DataImporter

/-! ## C9: collection-name derivation -/

lemma dropWhileHeadFalse {p : Char → Bool} :
    ∀ (l : List Char) d rest, l.dropWhile p = d :: rest → p d = false := by
  intro l
  induction l with
  | nil => intro d rest h; simp [List.dropWhile] at h
  | cons a t ih =>
    intro d rest h
    by_cases hpa : p a = true
    · rw [List.dropWhile_cons_of_pos hpa] at h
      exact ih d rest h
    · rw [List.dropWhile_cons_of_neg hpa] at h
      cases h
      simpa using hpa

lemma takeWhileCongr {p q : Char → Bool} :
    ∀ l : List Char, (∀ x ∈ l, p x = q x) → l.takeWhile p = l.takeWhile q := by
  intro l h
  induction l with
  | nil => rfl
  | cons a t ih =>
    simp only [List.takeWhile_cons]
    rw [h a (by simp)]
    cases hq : q a <;>
      simp [hq, ih fun x hx => h x (by simp [hx])]

lemma trimExt_eq_stripFinalExt (b : List Char) (hb : ∀ c ∈ b, c ≠ '/') :
    trimSuffixChars b (goExtChars b) = stripFinalExt b := by
  classical
  by_cases hdot : '.' ∈ b
  · -- the base name has a dot: split its reverse at the first dot
    have hcong :
        b.reverse.takeWhile (fun c => decide (c ≠ '/' ∧ c ≠ '.')) =
          b.reverse.takeWhile (fun c => c ≠ '.') := by
      refine takeWhileCongr _ fun x hx => ?_
      have hx' : x ≠ '/' := hb x (List.mem_reverse.mp hx)
      simp [hx']
    set tw := b.reverse.takeWhile (fun c => c ≠ '.') with htw
    set dw := b.reverse.dropWhile (fun c => c ≠ '.') with hdw
    have hsplit : tw ++ dw = b.reverse := List.takeWhile_append_dropWhile _ _
    have hdwne : dw ≠ [] := by
      intro hnil
      rw [hdw, List.dropWhile_eq_nil_iff] at hnil
      have := hnil '.' (List.mem_reverse.mpr hdot)
      simp at this
    obtain ⟨d, rest, hcons⟩ : ∃ d rest, dw = d :: rest := by
      cases h : dw with
      | nil => exact absurd h hdwne
      | cons d rest => exact ⟨d, rest, rfl⟩
    have hdchar : d = '.' := by
      have := dropWhileHeadFalse b.reverse d rest (by rw [← hdw]; exact hcons)
      simpa using this
    subst hdchar
    have hext : goExtChars b = '.' :: tw.reverse := by
      show (match b.reverse.drop
          (b.reverse.takeWhile (fun c => decide (c ≠ '/' ∧ c ≠ '.'))).length with
        | '.' :: _ => '.' ::
            (b.reverse.takeWhile (fun c => decide (c ≠ '/' ∧ c ≠ '.'))).reverse
        | _ => []) = '.' :: tw.reverse
      rw [hcong, ← hsplit, List.drop_left, hcons]
      rfl
    have hbdecomp : b = rest.reverse ++ ('.' :: tw.reverse) := by
      have h2 : b = (tw ++ dw).reverse := by rw [hsplit, List.reverse_reverse]
      rw [h2, hcons]
      simp
    have hsuf : ('.' :: tw.reverse).isSuffixOf b = true := by
      rw [hbdecomp]
      simp [List.isSuffixOf]
    have hcontains : b.contains '.' = true := by simpa using hdot
    have hlen : b.length - ('.' :: tw.reverse).length = rest.reverse.length := by
      rw [hbdecomp]
      simp
    rw [hext]
    unfold trimSuffixChars stripFinalExt
    rw [hsuf, hcontains]
    simp only [if_true]
    conv_lhs => rw [hlen, hbdecomp]
    rw [List.take_left]
    rw [← hdw, hcons]
    simp
  · -- no dot in the base name: the extension is empty
    have hall : ∀ x ∈ b.reverse, (fun c => decide (c ≠ '/' ∧ c ≠ '.')) x = true := by
      intro x hx
      have h1 : x ≠ '/' := hb x (List.mem_reverse.mp hx)
      have h2 : x ≠ '.' := by
        intro hxe
        exact hdot (by rw [← hxe] at hdot ⊢; exact List.mem_reverse.mp (hxe ▸ hx))
      simp [h1, h2]
    have hext : goExtChars b = [] := by
      show (match b.reverse.drop
          (b.reverse.takeWhile (fun c => decide (c ≠ '/' ∧ c ≠ '.'))).length with
        | '.' :: _ => '.' ::
            (b.reverse.takeWhile (fun c => decide (c ≠ '/' ∧ c ≠ '.'))).reverse
        | _ => []) = []
      rw [List.takeWhile_eq_self_iff.mpr hall, List.drop_length]
    rw [hext]
    unfold trimSuffixChars stripFinalExt
    have hsuf : ([] : List Char).isSuffixOf b = true := by simp [List.isSuffixOf]
    rw [hsuf]
    have hcontains : b.contains '.' = false := by simpa using hdot
    rw [hcontains]
    simp

lemma goBase_no_slash_or_root (p : String) :
    (goBase p).data = ['/'] ∨ ∀ c ∈ (goBase p).data, c ≠ '/' := by
  show goBaseChars p.data = ['/'] ∨ ∀ c ∈ goBaseChars p.data, c ≠ '/'
  unfold goBaseChars
  by_cases h0 : p.data = []
  · right
    simp [h0]
  · rw [if_neg h0]
    by_cases h1 : (p.data.reverse.dropWhile (· = '/')).reverse = ([] : List Char)
    · left
      rw [if_pos h1]
    · right
      rw [if_neg h1]
      intro c hc
      have : c ∈ ((p.data.reverse.dropWhile (· = '/')).reverse).reverse.takeWhile
          (fun x => x ≠ '/') := List.mem_reverse.mp hc
      have := List.mem_takeWhile_imp this
      simpa using this

/-- C9: for every file path the derived collection name is the path's base
name with only its final extension removed (`stripFinalExt` is that
description: drop everything from the last dot on, keep a dotless base
whole), and the three documented examples hold. -/
theorem c9_collection_name :
    (∀ p : String, FilePathToCollectionName p = ⟨stripFinalExt (goBase p).data⟩) ∧
    FilePathToCollectionName "users.json" = "users" ∧
    FilePathToCollectionName "/data/order.items.json" = "order.items" ∧
    FilePathToCollectionName "metadata" = "metadata" := by
  refine ⟨fun p => ?_, by decide, by decide, by decide⟩
  show (⟨trimSuffixChars (goBase p).data (goExt (goBase p)).data⟩ : String) = _
  rcases goBase_no_slash_or_root p with h | h
  · rw [show (goExt (goBase p)).data = goExtChars (goBase p).data from rfl, h]
    decide
  · rw [show (goExt (goBase p)).data = goExtChars (goBase p).data from rfl,
      trimExt_eq_stripFinalExt _ h]

end DataImporter

namespace DataImporter

/-! ## C8 / C4: `ParseJSONFile` on the two accepted shapes and on invalid
input -/

/-- The document produced for an object element of the array form. -/
def decodeElemDoc : Json → Document
  | .jobj fs => objToDoc fs
  | _ => []

lemma decodeElems_ok_of_objs :
    ∀ elems : List Json, (∀ e ∈ elems, ∃ fs, e = Json.jobj fs) →
      decodeElems elems = .ok (elems.map decodeElemDoc) := by
  intro elems h
  induction elems with
  | nil => rfl
  | cons e rest ih =>
    obtain ⟨fs, rfl⟩ := h e (by simp)
    have ht := ih fun x hx => h x (by simp [hx])
    simp [decodeElems, decodeElem, ht, decodeElemDoc]

lemma decodeElems_error_of_bad :
    ∀ (elems : List Json) (e : Json), e ∈ elems →
      (∀ fs, e ≠ Json.jobj fs) → e ≠ Json.jnull →
      ∃ err, decodeElems elems = .error err := by
  intro elems
  induction elems with
  | nil => intro e he; exact absurd he (List.not_mem_nil e)
  | cons a rest ih =>
    intro e he hobj hnull
    rcases List.mem_cons.mp he with rfl | hmem
    · cases e with
      | jobj fs => exact absurd rfl (hobj fs)
      | jnull => exact absurd rfl hnull
      | jbool b =>
        exact ⟨GoErr.syntaxErr "cannot unmarshal array element into map",
          by simp [decodeElems, decodeElem]⟩
      | jnum q =>
        exact ⟨GoErr.syntaxErr "cannot unmarshal array element into map",
          by simp [decodeElems, decodeElem]⟩
      | jstr s =>
        exact ⟨GoErr.syntaxErr "cannot unmarshal array element into map",
          by simp [decodeElems, decodeElem]⟩
      | jarr xs =>
        exact ⟨GoErr.syntaxErr "cannot unmarshal array element into map",
          by simp [decodeElems, decodeElem]⟩
    · obtain ⟨err, herr⟩ := ih e hmem hobj hnull
      cases hda : decodeElem a with
      | error err2 => exact ⟨err2, by simp [decodeElems, hda]⟩
      | ok d => exact ⟨err, by simp [decodeElems, hda, herr]⟩

end DataImporter

namespace DataImporter

/-- C8: a valid JSON array all of whose elements are objects parses to
exactly one record per element, in file order; a valid single JSON object
parses to a one-element sequence holding it; the array decode is attempted
first (its success is final) and the single-object decode runs only when
the array decode failed. -/
theorem c8_parse_shapes :
    (∀ (path content : String) (elems : List Json),
        jparse content = some (Json.jarr elems) →
        (∀ e ∈ elems, ∃ fs, e = Json.jobj fs) →
        parseJSONBytes path content = .ok (elems.map decodeElemDoc) ∧
          (elems.map decodeElemDoc).length = elems.length) ∧
    (∀ (path content : String) (fs : List (String × Json)),
        jparse content = some (Json.jobj fs) →
        parseJSONBytes path content = .ok [objToDoc fs]) ∧
    (∀ (path content : String) (docs : List Document),
        unmarshalDocSlice content = .ok docs →
        parseJSONBytes path content = .ok docs) ∧
    (∀ (path content : String) (err : GoErr),
        unmarshalDocSlice content = .error err →
        parseJSONBytes path content =
          match unmarshalDoc content with
          | .ok d => .ok [d]
          | .error e => .error (.invalidJSONFormat path e)) := by
  refine ⟨?_, ?_, ?_, ?_⟩
  · intro path content elems h1 h2
    have hs : unmarshalDocSlice content = .ok (elems.map decodeElemDoc) := by
      simp [unmarshalDocSlice, h1, decodeElems_ok_of_objs elems h2]
    exact ⟨by simp [parseJSONBytes, hs], by simp⟩
  · intro path content fs h1
    have hs : unmarshalDocSlice content =
        .error (.syntaxErr "cannot unmarshal value into slice") := by
      simp [unmarshalDocSlice, h1]
    have hd : unmarshalDoc content = .ok (objToDoc fs) := by
      simp [unmarshalDoc, h1]
    simp [parseJSONBytes, hs, hd]
  · intro path content docs h
    simp [parseJSONBytes, h]
  · intro path content err h
    cases h2 : unmarshalDoc content <;> simp [parseJSONBytes, h, h2]

/-- Witness for C8 at concrete inputs: a two-object array yields its two
records in order, and a single object yields a one-record sequence. -/
theorem c8_parse_shapes_witness :
    parseJSONBytes "a.json" "[\x7b\"a\":true\x7d,\x7b\"b\":false\x7d]" =
      .ok [[("a", Value.vBool true)], [("b", Value.vBool false)]] ∧
    parseJSONBytes "b.json" "\x7b\"a\":true\x7d" =
      .ok [[("a", Value.vBool true)]] := by
  constructor
  · exact (c8_parse_shapes.1 "a.json" "[\x7b\"a\":true\x7d,\x7b\"b\":false\x7d]"
      [Json.jobj [("a", Json.jbool true)], Json.jobj [("b", Json.jbool false)]] rfl
      (by
        intro e he
        simp only [List.mem_cons, List.not_mem_nil, or_false] at he
        rcases he with rfl | rfl
        exacts [⟨_, rfl⟩, ⟨_, rfl⟩])).1
  · exact c8_parse_shapes.2.1 "b.json" "\x7b\"a\":true\x7d"
      [("a", Json.jbool true)] rfl

/-- C4 as stated is false: the byte string `null` is valid JSON but is
neither a JSON array nor a JSON object, yet `ParseJSONFile` succeeds with
an empty record sequence instead of failing with `InvalidJSONFormat`,
because `json.Unmarshal` accepts `null` for a slice target by leaving the
slice nil. -/
theorem c4_counterexample :
    jparse "null" = some Json.jnull ∧
    parseJSONBytes "data.json" "null" = Except.ok ([] : List Document) :=
  ⟨rfl, rfl⟩

/-- C4 amended: parse fails with `InvalidJSONFormat` (wrapping the
underlying decode error) exactly when both decode attempts fail: for
syntactically invalid input, for a top-level scalar (boolean, number or
string), and for an array containing an element that is neither an object
nor `null`.  JSON `null` itself, and `null` elements inside an array, are
accepted. -/
theorem c4_invalid_format :
    (∀ path content : String, jparse content = none →
        parseJSONBytes path content =
          .error (.invalidJSONFormat path (.syntaxErr content))) ∧
    (∀ (path content : String) (b : Bool),
        jparse content = some (Json.jbool b) →
        parseJSONBytes path content =
          .error (.invalidJSONFormat path
            (.syntaxErr "cannot unmarshal value into map"))) ∧
    (∀ (path content : String) (q : ℚ),
        jparse content = some (Json.jnum q) →
        parseJSONBytes path content =
          .error (.invalidJSONFormat path
            (.syntaxErr "cannot unmarshal value into map"))) ∧
    (∀ (path content s : String),
        jparse content = some (Json.jstr s) →
        parseJSONBytes path content =
          .error (.invalidJSONFormat path
            (.syntaxErr "cannot unmarshal value into map"))) ∧
    (∀ (path content : String) (elems : List Json) (e : Json),
        jparse content = some (Json.jarr elems) → e ∈ elems →
        (∀ fs, e ≠ Json.jobj fs) → e ≠ Json.jnull →
        parseJSONBytes path content =
          .error (.invalidJSONFormat path
            (.syntaxErr "cannot unmarshal value into map"))) := by
  refine ⟨?_, ?_, ?_, ?_, ?_⟩
  · intro path content h
    simp [parseJSONBytes, unmarshalDocSlice, unmarshalDoc, h]
  · intro path content b h
    simp [parseJSONBytes, unmarshalDocSlice, unmarshalDoc, h]
  · intro path content q h
    simp [parseJSONBytes, unmarshalDocSlice, unmarshalDoc, h]
  · intro path content s h
    simp [parseJSONBytes, unmarshalDocSlice, unmarshalDoc, h]
  · intro path content elems e h1 hmem hobj hnull
    obtain ⟨err, herr⟩ := decodeElems_error_of_bad elems e hmem hobj hnull
    simp [parseJSONBytes, unmarshalDocSlice, unmarshalDoc, h1, herr]

/-- Witness for the amended C4: garbage input and an array of scalars both
fail with `InvalidJSONFormat`. -/
theorem c4_invalid_format_witness :
    parseJSONBytes "data.json" "not json" =
      .error (.invalidJSONFormat "data.json" (.syntaxErr "not json")) ∧
    parseJSONBytes "d.json" "[true]" =
      .error (.invalidJSONFormat "d.json"
        (.syntaxErr "cannot unmarshal value into map")) := by
  constructor
  · exact c4_invalid_format.1 "data.json" "not json" rfl
  · exact c4_invalid_format.2.2.2.2 "d.json" "[true]" [Json.jbool true]
      (Json.jbool true) rfl (by simp) (fun fs h => Json.noConfusion h)
      (fun h => Json.noConfusion h)

end DataImporter

namespace DataImporter

/-! ## C2: `$date` normalization -/

lemma procFields_fst :
    ∀ fields : List (String × Value),
      (procFields fields).1 = fields.map fun kv => (kv.1, (procVal kv.2).1) := by
  intro fields
  induction fields with
  | nil => rfl
  | cons kv rest ih =>
    cases kv with
    | mk k v => simp [procFields, ih]

lemma cleanDocuments_true_fst :
    ∀ docs : List Document,
      (cleanDocuments true docs).1 =
        docs.map fun d => (processDocumentDates (deleteKey "_id" d)).1 := by
  intro docs
  induction docs with
  | nil => rfl
  | cons d rest ih =>
    show ((processDocumentDates (deleteKey "_id" d)).1 ::
        (cleanDocuments true rest).1, _).1 = _
    simp [ih]

/-- C2: with normalization enabled, a nested map whose `"$date"` key holds
a string is replaced by the parsed temporal value when one of the four
layouts accepts the string, and is left untouched — with only a non-fatal
printed warning — when parsing fails; `processDocumentDates` applies this
per-value transformation to every key of the record, and `cleanDocuments
true` applies it (after `_id` removal) to every record.  In particular
`\x7b"$date": "2024-05-22T16:04:35.000Z"\x7d` becomes the instant
2024-05-22T16:04:35Z. -/
theorem c2_date_normalization :
    (∀ (fields : List (String × Value)) (s : String) (t : DTime),
        lookupKey "$date" fields = some (.vStr s) →
        parseDateTime s = some t →
        procVal (.vMap fields) = (.vTime t, [])) ∧
    (∀ (fields : List (String × Value)) (s : String),
        lookupKey "$date" fields = some (.vStr s) →
        parseDateTime s = none →
        procVal (.vMap fields) =
          (.vMap fields, ["Failed to parse date string: " ++ s])) ∧
    (∀ doc : Document,
        (processDocumentDates doc).1 =
          doc.map fun kv => (kv.1, (procVal kv.2).1)) ∧
    (∀ docs : List Document,
        (cleanDocuments true docs).1 =
          docs.map fun d => (processDocumentDates (deleteKey "_id" d)).1) ∧
    (cleanDocuments true
        [[("created_at",
            Value.vMap [("$date", Value.vStr "2024-05-22T16:04:35.000Z")])]]).1 =
      [[("created_at", Value.vTime ⟨2024, 5, 22, 16, 4, 35, 0, 0⟩)]] := by
  refine ⟨?_, ?_, procFields_fst, cleanDocuments_true_fst, rfl⟩
  · intro fields s t h1 h2
    simp [procVal, h1, h2]
  · intro fields s h1 h2
    simp [procVal, h1, h2]

/-- Witness for C2: the parsing branch and the warning branch at concrete
inputs. -/
theorem c2_date_normalization_witness :
    procVal (.vMap [("$date", Value.vStr "2024-05-22T16:04:35.000Z")]) =
      (.vTime ⟨2024, 5, 22, 16, 4, 35, 0, 0⟩, []) ∧
    procVal (.vMap [("$date", Value.vStr "garbage")]) =
      (.vMap [("$date", Value.vStr "garbage")],
        ["Failed to parse date string: garbage"]) :=
  ⟨c2_date_normalization.1 [("$date", Value.vStr "2024-05-22T16:04:35.000Z")]
      "2024-05-22T16:04:35.000Z" ⟨2024, 5, 22, 16, 4, 35, 0, 0⟩ rfl rfl,
    c2_date_normalization.2.1 [("$date", Value.vStr "garbage")] "garbage" rfl rfl⟩

end DataImporter

namespace DataImporter

/-! ## C1 / C3: the batch-write path -/

lemma chunksOfAux_join {α : Type} (bs : Nat) (hbs : 0 < bs) :
    ∀ (fuel : Nat) (l : List α), l.length ≤ fuel →
      (chunksOfAux bs fuel l).flatten = l := by
  intro fuel
  induction fuel with
  | zero =>
    intro l hl
    cases l with
    | nil => rfl
    | cons a t => simp at hl
  | succ n ih =>
    intro l hl
    cases l with
    | nil => rfl
    | cons a t =>
      show (((a :: t).take bs) :: chunksOfAux bs n ((a :: t).drop bs)).flatten = a :: t
      rw [List.flatten_cons, ih ((a :: t).drop bs)
        (by simp only [List.length_drop, List.length_cons] at hl ⊢; omega)]
      exact List.take_append_drop bs (a :: t)

lemma chunksOf_join {α : Type} (bs : Nat) (hbs : 0 < bs) (l : List α) :
    (chunksOf bs l).flatten = l :=
  chunksOfAux_join bs hbs l.length l le_rfl

lemma chunksOfAux_bounds {α : Type} (bs : Nat) (hbs : 0 < bs) :
    ∀ (fuel : Nat) (l : List α) (b : List α), b ∈ chunksOfAux bs fuel l →
      b.length ≤ bs ∧ b ≠ [] := by
  intro fuel
  induction fuel with
  | zero =>
    intro l b hb
    cases l with
    | nil => simp [chunksOfAux] at hb
    | cons a t => simp [chunksOfAux] at hb
  | succ n ih =>
    intro l b hb
    cases l with
    | nil => simp [chunksOfAux] at hb
    | cons a t =>
      rcases List.mem_cons.mp hb with rfl | hmem
      · constructor
        · simp
        · cases hbs' : bs with
          | zero => omega
          | succ m => simp [List.take]
      · exact ih ((a :: t).drop bs) b hmem

lemma chunksOf_bounds {α : Type} (bs : Nat) (hbs : 0 < bs) (l : List α) :
    ∀ b ∈ chunksOf bs l, b.length ≤ bs ∧ b ≠ [] :=
  fun b hb => chunksOfAux_bounds bs hbs l.length l b hb

/-- A store accepting every batch with one inserted id per document, the
full-success scenario. -/
def okStore : Nat → List Document → Except GoErr Nat := fun _ b => .ok b.length

/-- A store failing exactly the batch with 0-based index `j`. -/
def failStore (j : Nat) (e : GoErr) : Nat → List Document → Except GoErr Nat :=
  fun i b => if i = j then .error e else .ok b.length

lemma insertLoop_okStore :
    ∀ (batches : List (List Document)) (coll : String) (tb idx acc : Nat),
      insertLoop okStore coll tb batches idx acc =
        (batches.map List.length, .ok (acc + (batches.map List.length).sum)) := by
  intro batches
  induction batches with
  | nil => intro coll tb idx acc; simp [insertLoop]
  | cons b rest ih =>
    intro coll tb idx acc
    simp [insertLoop, okStore, ih, Nat.add_assoc]

lemma insertLoop_failStore :
    ∀ (batches : List (List Document)) (coll : String) (tb idx acc j : Nat)
      (e : GoErr), idx ≤ j → j < idx + batches.length →
      insertLoop (failStore j e) coll tb batches idx acc =
        ((batches.map List.length).take (j - idx + 1),
          .error (.repoInsertErr coll (j + 1) tb e)) := by
  intro batches
  induction batches with
  | nil =>
    intro coll tb idx acc j e h1 h2
    simp at h2
    omega
  | cons b rest ih =>
    intro coll tb idx acc j e h1 h2
    by_cases hij : idx = j
    · subst hij
      simp [insertLoop, failStore, Nat.sub_self]
    · have hlt : idx < j := lt_of_le_of_ne h1 hij
      have hrec := ih coll tb (idx + 1) (acc + b.length) j e hlt
        (by simp only [List.length_cons] at h2; omega)
      have hne : ¬ (idx = j) := hij
      simp only [insertLoop, failStore, if_neg hne, hrec]
      have harith : j - idx + 1 = (j - (idx + 1) + 1) + 1 := by omega
      rw [List.map_cons, harith, List.take_succ_cons]

lemma insertDocumentsT_okStore (coll : String) (docs : List Document)
    (hne : docs ≠ []) :
    InsertDocumentsT okStore coll docs =
      ((chunksOf 1000 docs).map List.length,
        .ok { collectionName := coll, insertedCount := docs.length }) := by
  have hfalse : docs.isEmpty = false := by
    cases docs with
    | nil => exact absurd rfl hne
    | cons a t => rfl
  have hsum : ((chunksOf 1000 docs).map List.length).sum = docs.length := by
    have := chunksOf_join 1000 (by omega) docs
    calc ((chunksOf 1000 docs).map List.length).sum
        = (chunksOf 1000 docs).flatten.length := (List.length_flatten _).symm
      _ = docs.length := by rw [this]
  simp [InsertDocumentsT, hfalse, insertLoop_okStore, hsum, Except.map]

end DataImporter

namespace DataImporter

/-- One record of the shape used in `TestProcessBatches`. -/
def testDoc : Document := [("name", Value.vStr "Test")]

/-- 250 records, the spec's batching example. -/
def docs250 : List Document := List.replicate 250 testDoc

/-- 2500 records: three repository batches (1000/1000/500). -/
def docs2500 : List Document := List.replicate 2500 testDoc

/-- A `MongoImporter` with the given repository and configured batch size
(file utilities irrelevant to the batch-write path). -/
def importerWith (repo : RepoModel) (bs : Nat) : ImporterModel :=
  ⟨⟨fun _ => .ok false, fun _ => .ok [], fun _ => .ok []⟩, repo, bs, false,
    fun _ => 0⟩

lemma chunksOfAux_replicate_step {α : Type} (bs fuel n : Nat) (x : α)
    (hn : 0 < n) :
    chunksOfAux bs (fuel + 1) (List.replicate n x) =
      List.replicate (min bs n) x ::
        chunksOfAux bs fuel (List.replicate (n - bs) x) := by
  obtain ⟨m, rfl⟩ : ∃ m, n = m + 1 := ⟨n - 1, by omega⟩
  rw [List.replicate_succ]
  show (List.take bs (x :: List.replicate m x)) ::
      chunksOfAux bs fuel (List.drop bs (x :: List.replicate m x)) = _
  rw [← List.replicate_succ, List.take_replicate, List.drop_replicate]

lemma replicate_ne_nil {α : Type} (n : Nat) (x : α) (hn : 0 < n) :
    List.replicate n x ≠ [] := by
  intro h
  have := congrArg List.length h
  simp at this
  omega

lemma chunks_docs250 : chunksOf 1000 docs250 = [List.replicate 250 testDoc] := by
  show chunksOfAux 1000 (List.replicate 250 testDoc).length
    (List.replicate 250 testDoc) = _
  rw [List.length_replicate]
  rw [show (250 : Nat) = 249 + 1 from rfl]
  rw [chunksOfAux_replicate_step 1000 249 (249 + 1) testDoc (by omega)]
  norm_num [chunksOfAux]

lemma chunks_docs2500 :
    chunksOf 1000 docs2500 =
      [List.replicate 1000 testDoc, List.replicate 1000 testDoc,
        List.replicate 500 testDoc] := by
  show chunksOfAux 1000 (List.replicate 2500 testDoc).length
    (List.replicate 2500 testDoc) = _
  rw [List.length_replicate]
  rw [show (2500 : Nat) = 2499 + 1 from rfl]
  rw [chunksOfAux_replicate_step 1000 2499 (2499 + 1) testDoc (by omega)]
  rw [show (2499 + 1 - 1000 : Nat) = 1500 from rfl,
    show (2499 : Nat) = 2498 + 1 from rfl]
  rw [chunksOfAux_replicate_step 1000 2498 1500 testDoc (by omega)]
  rw [show (1500 - 1000 : Nat) = 500 from rfl,
    show (2498 : Nat) = 2497 + 1 from rfl]
  rw [chunksOfAux_replicate_step 1000 2497 500 testDoc (by omega)]
  norm_num [chunksOfAux]

/-- C1 as stated is false: with a configured batch size of 100, 250
records produce exactly ONE store call of size 250, not three calls of
sizes 100/100/50 — the service's `processBatches` hands the whole slice to
the repository in a single `InsertDocuments` call, and the repository
partitions with its own hard-coded `batchSize := 1000`, ignoring the
configured value.  (Full success still yields insertedCount = 250.) -/
theorem c1_counterexample :
    (InsertDocumentsT okStore "users" docs250).1 = [250] ∧
    [(250 : Nat)] ≠ [100, 100, 50] ∧
    processBatches (importerWith (mkRepo okStore) 100) docs250 "users" =
      (250, none) := by
  have hne : docs250 ≠ [] := replicate_ne_nil 250 testDoc (by omega)
  have h := insertDocumentsT_okStore "users" docs250 hne
  refine ⟨?_, by decide, ?_⟩
  · rw [h]
    rw [chunks_docs250]
    simp
  · have hlen : docs250.length = 250 := List.length_replicate 250 testDoc
    have h2 : (InsertDocumentsT okStore "users" docs250).2 =
        .ok { collectionName := "users", insertedCount := docs250.length } := by
      rw [h]
    show (match (InsertDocumentsT okStore "users" docs250).2 with
      | .error e => ((0 : Nat), some e)
      | .ok result => (result.insertedCount, none)) = (250, none)
    rw [h2, hlen]

/-- C1 amended: the records are partitioned into consecutive
order-preserving batches of at most 1000 — the repository-internal
constant, regardless of the service's configured batch size — with one
bulk-insert call per batch, and full success yields an inserted count
equal to the number of records (so 250 records give one call of size 250
and insertedCount 250). -/
theorem c1_batching :
    (∀ (coll : String) (docs : List Document), docs ≠ [] →
        (InsertDocumentsT okStore coll docs).1 =
          (chunksOf 1000 docs).map List.length ∧
        (chunksOf 1000 docs).flatten = docs ∧
        (∀ b ∈ chunksOf 1000 docs, b.length ≤ 1000 ∧ b ≠ []) ∧
        (InsertDocumentsT okStore coll docs).2 =
          .ok { collectionName := coll, insertedCount := docs.length }) ∧
    (∀ (m : ImporterModel) (coll : String) (docs : List Document),
        m.repo = mkRepo okStore → docs ≠ [] →
        processBatches m docs coll = (docs.length, none)) := by
  constructor
  · intro coll docs hne
    have h := insertDocumentsT_okStore coll docs hne
    exact ⟨by rw [h], chunksOf_join 1000 (by omega) docs,
      chunksOf_bounds 1000 (by omega) docs, by rw [h]⟩
  · intro m coll docs hrepo hne
    have h := insertDocumentsT_okStore coll docs hne
    simp [processBatches, hrepo, mkRepo, h]

/-- Witness for the amended C1: 250 records with configured batch size 100
give inserted count 250 through the service path. -/
theorem c1_batching_witness :
    (InsertDocumentsT okStore "users" docs250).2 =
      .ok { collectionName := "users", insertedCount := 250 } ∧
    processBatches (importerWith (mkRepo okStore) 100) docs250 "users" =
      (250, none) := by
  have hne : docs250 ≠ [] := replicate_ne_nil 250 testDoc (by omega)
  have hlen : docs250.length = 250 := List.length_replicate 250 testDoc
  constructor
  · have hth := (c1_batching.1 "users" docs250 hne).2.2.2
    rw [hlen] at hth
    exact hth
  · have hth := c1_batching.2 (importerWith (mkRepo okStore) 100) "users"
      docs250 rfl hne
    rw [hlen] at hth
    exact hth

/-- C3: when a batch's `InsertMany` call fails, `InsertDocuments` returns
the wrapped batch error immediately — the call trace stops at the failing
batch — and the caller-visible `processBatches` result is `(0, err)`:
counts from batches that succeeded before the failure are not reported.
The first conjunct is the service-level contract for any repository
error. -/
theorem c3_fail_fast :
    (∀ (m : ImporterModel) (docs : List Document) (coll : String) (e : GoErr),
        m.repo.insertDocuments coll docs = .error e →
        processBatches m docs coll = (0, some e)) ∧
    (∀ (coll : String) (docs : List Document) (j : Nat) (e : GoErr),
        docs ≠ [] → j < (chunksOf 1000 docs).length →
        (InsertDocumentsT (failStore j e) coll docs).1 =
          ((chunksOf 1000 docs).map List.length).take (j + 1) ∧
        (InsertDocumentsT (failStore j e) coll docs).2 =
          .error (.repoInsertErr coll (j + 1)
            ((docs.length + 1000 - 1) / 1000) e) ∧
        ∀ m : ImporterModel, m.repo = mkRepo (failStore j e) →
          processBatches m docs coll =
            (0, some (.repoInsertErr coll (j + 1)
              ((docs.length + 1000 - 1) / 1000) e))) := by
  constructor
  · intro m docs coll e h
    simp [processBatches, h]
  · intro coll docs j e hne hj
    have hfalse : docs.isEmpty = false := by
      cases docs with
      | nil => exact absurd rfl hne
      | cons a t => rfl
    have hloop := insertLoop_failStore (chunksOf 1000 docs) coll
      ((docs.length + 1000 - 1) / 1000) 0 0 j e (Nat.zero_le j) (by omega)
    simp only [Nat.sub_zero] at hloop
    have h1 : (InsertDocumentsT (failStore j e) coll docs).1 =
        ((chunksOf 1000 docs).map List.length).take (j + 1) := by
      simp only [InsertDocumentsT, hfalse, Bool.false_eq_true, if_false, hloop]
    have h2 : (InsertDocumentsT (failStore j e) coll docs).2 =
        .error (.repoInsertErr coll (j + 1)
          ((docs.length + 1000 - 1) / 1000) e) := by
      simp only [InsertDocumentsT, hfalse, Bool.false_eq_true, if_false, hloop]
      rfl
    refine ⟨h1, h2, ?_⟩
    intro m hrepo
    simp [processBatches, hrepo, mkRepo, h2]

/-- Witness for C3: with 2500 records (batches 1000/1000/500) and the
second batch failing, only two store calls happen and the result is
`(0, RepositoryError for batch 2/3)` — not the 1000 documents of the
successful first batch. -/
theorem c3_fail_fast_witness :
    (InsertDocumentsT (failStore 1 (.base "boom")) "users" docs2500).1 =
      [1000, 1000] ∧
    processBatches (importerWith (mkRepo (failStore 1 (.base "boom"))) 100)
        docs2500 "users" =
      (0, some (.repoInsertErr "users" 2 3 (.base "boom"))) ∧
    (0 : Nat) ≠ 1000 := by
  have hne : docs2500 ≠ [] := replicate_ne_nil 2500 testDoc (by omega)
  have hj : 1 < (chunksOf 1000 docs2500).length := by
    rw [chunks_docs2500]
    norm_num
  have hlen : docs2500.length = 2500 := List.length_replicate 2500 testDoc
  have h := c3_fail_fast.2 "users" docs2500 1 (.base "boom") hne hj
  refine ⟨?_, ?_, by decide⟩
  · rw [h.1, chunks_docs2500]
    simp only [List.map_cons, List.map_nil, List.length_replicate,
      List.take_succ_cons, List.take_zero]
  · have := h.2.2 (importerWith (mkRepo (failStore 1 (.base "boom"))) 100) rfl
    rw [this, hlen]

end DataImporter

namespace DataImporter

/-! ## C7 / C10: `ImportFile` result invariants -/

/-- C7: whenever the `ImportResult` returned by `ImportFile` carries an
error, its inserted count is 0 — both error paths return before
`InsertedCount` is assigned, leaving the zero value. -/
theorem c7_error_implies_zero_count :
    ∀ (m : ImporterModel) (filePath : String),
      (ImportFile m filePath).1.error ≠ none →
      (ImportFile m filePath).1.insertedCount = 0 := by
  intro m filePath h
  cases hp : m.fileUtils.parseJSONFile filePath with
  | error e => simp [ImportFile, hp]
  | ok documents =>
    rcases hpb : processBatches m
      (cleanDocuments m.removeIDField documents).1
      (FilePathToCollectionName filePath) with ⟨count, err⟩
    cases err with
    | some e => simp [ImportFile, hp, hpb]
    | none =>
      exfalso
      apply h
      simp [ImportFile, hp, hpb]

/-- C10: `ImportFile` writes the elapsed duration into the result only on
the success path; on a parse failure or a batch-insert failure the
returned result keeps the zero duration. -/
theorem c10_duration_only_on_success :
    ∀ (m : ImporterModel) (filePath : String),
      ((ImportFile m filePath).2 ≠ none →
        (ImportFile m filePath).1.duration = 0) ∧
      ((ImportFile m filePath).2 = none →
        (ImportFile m filePath).1.duration = m.elapsed filePath) := by
  intro m filePath
  cases hp : m.fileUtils.parseJSONFile filePath with
  | error e => exact ⟨fun _ => by simp [ImportFile, hp], fun h => by
      simp [ImportFile, hp] at h⟩
  | ok documents =>
    rcases hpb : processBatches m
      (cleanDocuments m.removeIDField documents).1
      (FilePathToCollectionName filePath) with ⟨count, err⟩
    cases err with
    | some e =>
      exact ⟨fun _ => by simp [ImportFile, hp, hpb], fun h => by
        simp [ImportFile, hp, hpb] at h⟩
    | none =>
      exact ⟨fun h => absurd (by simp [ImportFile, hp, hpb]) h, fun _ => by
        simp [ImportFile, hp, hpb]⟩

/-- File utilities whose parse always fails (a file of invalid JSON). -/
def failParseUtils : FileUtilsModel :=
  ⟨fun _ => .ok false, fun _ => .ok [], fun _ => .error (.base "bad json")⟩

/-- An importer whose parse step fails. -/
def mParseFail : ImporterModel :=
  ⟨failParseUtils, mkRepo okStore, 1000, false, fun _ => 7⟩

/-- File utilities that successfully read one single-record file. -/
def goodUtils : FileUtilsModel :=
  ⟨fun _ => .ok false, fun _ => .ok [],
    fun _ => .ok [[("a", Value.vBool true)]]⟩

/-- An importer that fully succeeds, with a measured elapsed time of 7. -/
def mOk : ImporterModel := ⟨goodUtils, mkRepo okStore, 1000, false, fun _ => 7⟩

/-- Witness for C7: a failing parse yields a result with an error and
inserted count 0. -/
theorem c7_witness :
    (ImportFile mParseFail "data.json").1.error ≠ none ∧
    (ImportFile mParseFail "data.json").1.insertedCount = 0 :=
  ⟨by decide, c7_error_implies_zero_count mParseFail "data.json" (by decide)⟩

/-- Witness for C10: the failing import reports duration 0, the successful
one reports the measured elapsed time. -/
theorem c10_witness :
    (ImportFile mParseFail "data.json").1.duration = 0 ∧
    (ImportFile mOk "data.json").1.duration = 7 :=
  ⟨(c10_duration_only_on_success mParseFail "data.json").1 (by decide),
    (c10_duration_only_on_success mOk "data.json").2 (by decide)⟩

/-! ## C5 / C6: fatal errors of `ImportPath` and directory aggregation -/

def GoErr.isCheckingErr : GoErr → Bool
  | .errCheckingPath _ _ => true
  | _ => false

def GoErr.isFindingErr : GoErr → Bool
  | .errFindingFiles _ _ => true
  | _ => false

def GoErr.isNoJSONFiles : GoErr → Bool
  | .noJSONFilesFound _ => true
  | _ => false

/-- File utilities for which the path is a directory but the recursive
JSON-file discovery (the `filepath.Walk`) fails. -/
def walkFailUtils : FileUtilsModel :=
  ⟨fun _ => .ok true, fun _ => .error (.base "walk failed"), fun _ => .ok []⟩

def mWalkFail : ImporterModel :=
  ⟨walkFailUtils, mkRepo okStore, 1000, false, fun _ => 0⟩

/-- C5 as stated is false: a failure of the JSON-file discovery walk
(after a successful stat classification) is a third invocation-fatal
error of `ImportPath` — it is neither the path-classification (stat)
failure nor `NoJSONFilesFound`, and no `ImportResult` records it. -/
theorem c5_counterexample :
    ImportPath mWalkFail "/data" =
      .fatal (.errFindingFiles "/data" (.base "walk failed")) ∧
    (GoErr.errFindingFiles "/data" (.base "walk failed")).isCheckingErr = false ∧
    (GoErr.errFindingFiles "/data" (.base "walk failed")).isNoJSONFiles = false :=
  ⟨rfl, rfl, rfl⟩

/-- C5 amended: the invocation-fatal (result-less) errors of `ImportPath`
are exactly three — stat classification failure, JSON-file discovery
(walk) failure, and `NoJSONFilesFound`; every per-file failure is instead
recorded in that file's `ImportResult` (the error returned by `ImportFile`
is always the one stored in its result), and in directory mode every
discovered file contributes its result regardless of the other files'
failures — sibling processing is never aborted. -/
theorem c5_fatal_errors :
    (∀ (m : ImporterModel) (path : String) (e : GoErr),
        ImportPath m path = .fatal e →
        e.isCheckingErr = true ∨ e.isFindingErr = true ∨
          e.isNoJSONFiles = true) ∧
    (∀ (m : ImporterModel) (path : String),
        (ImportFile m path).2 = (ImportFile m path).1.error) ∧
    (∀ (m : ImporterModel) (dirPath : String) (files : List String),
        m.fileUtils.findJSONFiles dirPath = .ok files → files ≠ [] →
        ∃ agg, ImportDirectory m dirPath =
          .results (files.map fun f => (ImportFile m f).1) agg) := by
  refine ⟨?_, ?_, ?_⟩
  · intro m path e h
    cases hd : m.fileUtils.isDirectory path with
    | error e0 =>
      simp [ImportPath, hd] at h
      subst h
      left
      rfl
    | ok isDir =>
      cases isDir with
      | false =>
        simp [ImportPath, hd] at h
      | true =>
        cases hf : m.fileUtils.findJSONFiles path with
        | error e0 =>
          simp [ImportPath, ImportDirectory, hd, hf] at h
          subst h
          right; left
          rfl
        | ok files =>
          by_cases hfe : files = []
          · simp [ImportPath, ImportDirectory, hd, hf, hfe] at h
            subst h
            right; right
            rfl
          · simp [ImportPath, ImportDirectory, hd, hf, hfe] at h
            rcases h0 : ((files.map fun f => (ImportFile m f).1).filter
                fun r => r.error.isSome).length with _ | n
            · simp [h0] at h
            · simp [h0] at h
  · intro m path
    cases hp : m.fileUtils.parseJSONFile path with
    | error e => simp [ImportFile, hp]
    | ok documents =>
      rcases hpb : processBatches m
        (cleanDocuments m.removeIDField documents).1
        (FilePathToCollectionName path) with ⟨count, err⟩
      cases err with
      | some e => simp [ImportFile, hp, hpb]
      | none => simp [ImportFile, hp, hpb]
  · intro m dirPath files hf hne
    by_cases hk : ((files.map fun f => (ImportFile m f).1).filter
        fun r => r.error.isSome).length > 0
    · exact ⟨some (.aggregateErr
          ((files.map fun f => (ImportFile m f).1).filter
            fun r => r.error.isSome).length files.length),
        by simp [ImportDirectory, hf, hne, hk]⟩
    · exact ⟨none, by simp [ImportDirectory, hf, hne, hk]⟩

end DataImporter

namespace DataImporter

/-- A directory with two discovered files: `valid.json` parses to one
record, `invalid.json` fails to parse. -/
def mixedUtils : FileUtilsModel :=
  ⟨fun _ => .ok true,
    fun _ => .ok ["/d/valid.json", "/d/invalid.json"],
    fun p => if p = "/d/invalid.json" then .error (.base "bad json")
      else .ok [[("a", Value.vBool true)]]⟩

def mMixed : ImporterModel := ⟨mixedUtils, mkRepo okStore, 1000, false, fun _ => 5⟩

/-- A directory with one discovered file that imports successfully. -/
def allGoodUtils : FileUtilsModel :=
  ⟨fun _ => .ok true, fun _ => .ok ["/d/a.json"],
    fun _ => .ok [[("a", Value.vBool true)]]⟩

def mAllGood : ImporterModel :=
  ⟨allGoodUtils, mkRepo okStore, 1000, false, fun _ => 5⟩

/-- Witness for the amended C5: the walk failure falls in the fatal-error
tri-chotomy, a failing `ImportFile` stores its returned error in the
result, and a two-file directory with one failing file still produces both
results. -/
theorem c5_fatal_errors_witness :
    ((GoErr.errFindingFiles "/data" (GoErr.base "walk failed")).isCheckingErr = true ∨
      (GoErr.errFindingFiles "/data" (GoErr.base "walk failed")).isFindingErr = true ∨
      (GoErr.errFindingFiles "/data" (GoErr.base "walk failed")).isNoJSONFiles = true) ∧
    (ImportFile mParseFail "x.json").2 = (ImportFile mParseFail "x.json").1.error ∧
    (∃ agg, ImportDirectory mMixed "/d" =
      .results [(ImportFile mMixed "/d/valid.json").1,
        (ImportFile mMixed "/d/invalid.json").1] agg) :=
  ⟨c5_fatal_errors.1 mWalkFail "/data"
      (.errFindingFiles "/data" (.base "walk failed")) rfl,
    c5_fatal_errors.2.1 mParseFail "x.json",
    c5_fatal_errors.2.2 mMixed "/d" ["/d/valid.json", "/d/invalid.json"] rfl
      (by simp)⟩

/-- C6: over `n ≥ 1` discovered files, `ImportDirectory` returns exactly
one `ImportResult` per discovered file — including the successful ones —
together with the aggregate "`k` out of `n` files failed to import" error
when `k ≥ 1` results carry an error, and with a nil error when `k = 0`. -/
theorem c6_directory_aggregation :
    ∀ (m : ImporterModel) (dirPath : String) (files : List String),
      m.fileUtils.findJSONFiles dirPath = .ok files → files ≠ [] →
      (files.map fun f => (ImportFile m f).1).length = files.length ∧
      (0 < ((files.map fun f => (ImportFile m f).1).filter
          fun r => r.error.isSome).length →
        ImportDirectory m dirPath =
          .results (files.map fun f => (ImportFile m f).1)
            (some (.aggregateErr
              ((files.map fun f => (ImportFile m f).1).filter
                fun r => r.error.isSome).length files.length))) ∧
      (((files.map fun f => (ImportFile m f).1).filter
          fun r => r.error.isSome).length = 0 →
        ImportDirectory m dirPath =
          .results (files.map fun f => (ImportFile m f).1) none) := by
  intro m dirPath files hf hne
  refine ⟨by simp, ?_, ?_⟩
  · intro hk
    simp [ImportDirectory, hf, hne, hk]
  · intro hk
    simp [ImportDirectory, hf, hne, hk]

/-- Witness for C6: the mixed directory returns two results and the
aggregate error "1 out of 2 files failed to import"; the all-success
directory returns its results with a nil error. -/
theorem c6_directory_aggregation_witness :
    ImportDirectory mMixed "/d" =
      .results [(ImportFile mMixed "/d/valid.json").1,
          (ImportFile mMixed "/d/invalid.json").1]
        (some (.aggregateErr 1 2)) ∧
    ImportDirectory mAllGood "/d" =
      .results [(ImportFile mAllGood "/d/a.json").1] none := by
  constructor
  · have h := (c6_directory_aggregation mMixed "/d"
      ["/d/valid.json", "/d/invalid.json"] rfl (by simp)).2.1 (by decide)
    exact h
  · have h := (c6_directory_aggregation mAllGood "/d"
      ["/d/a.json"] rfl (by simp)).2.2 (by decide)
    exact h

end DataImporter
